import Mathlib

/-!
Shallow embedding of the toy-exchange core (a limit order book plus a
matching engine) and proofs of its specification's claims.

Source layout being modelled:
- `src/exchange/book.py` : `OrderBook` with `_bids` / `_asks`
  (`dict[price -> deque[Order]]`), `add_order`, aggregated views
  (`get_bids` / `get_asks`), best-level queries
  (`get_best_bid` / `get_best_ask`).
- `src/exchange/matcher.py` : `MatchingEngine` with `_last_trade` and
  `submit_order` (exact-quantity matching at the single best opposing
  level only).

Modelling conventions:
- A Python `dict[int, deque[Order]]` becomes an association list
  `List (Int × List Order)`; insertion order of keys is preserved, new
  keys are appended at the end (Python dicts preserve insertion order),
  and lookup / in-place mutation act on the first matching key.
- Python `None` returns become `Option.none`; an uncaught exception
  (`KeyError` from `self._asks[price]`, `IndexError` from `level[0]`)
  becomes `Except.error`.
- Machine integers are `Int` (Python ints are unbounded, so no overflow
  modelling is needed).
-/

namespace ToyExchange

/-- Modelled from the spec (the repository's `models.py` is not under
`src/`): an `Order` carries `order_id`, `side` (a string, `"BUY"` or
`"SELL"` when well-formed), integer `price`, `qty` and `timestamp`. -/
structure Order where
  order_id : Nat
  side : String
  price : Int
  qty : Int
  timestamp : Int
deriving DecidableEq, Repr

/-- Modelled from the spec (the repository's `models.py` is not under
`src/`): a `Trade` carries the execution `price`, matched `qty`, and the
taker's and maker's order ids. -/
structure Trade where
  price : Int
  qty : Int
  taker_order_id : Nat
  maker_order_id : Nat
deriving DecidableEq, Repr

/-- A price level: the FIFO queue (Python `deque`) of orders resting at
one price, front of the queue first. -/
abbrev Level := List Order

/-- One side of the book: Python `dict[price -> deque[Order]]` as an
association list in key-insertion order. -/
abbrev PriceDict := List (Int × Level)

/-- `d[k]` lookup: the value at the first occurrence of key `k`, or
`none` when the key is absent (Python would raise `KeyError`). -/
def assocFind {α : Type} (d : List (Int × α)) (k : Int) : Option α :=
  match d with
  | [] => none
  | (p, v) :: rest => if p = k then some v else assocFind rest k

/-- `d[k] = v` on an existing key: replace the value at the first
occurrence of `k` (models in-place mutation of the deque stored there). -/
def assocSet {α : Type} (d : List (Int × α)) (k : Int) (v : α) : List (Int × α) :=
  match d with
  | [] => []
  | (p, w) :: rest => if p = k then (p, v) :: rest else (p, w) :: assocSet rest k v

/-- `del d[k]`: remove the entry for key `k`. -/
def assocDelete {α : Type} (d : List (Int × α)) (k : Int) : List (Int × α) :=
  match d with
  | [] => []
  | (p, w) :: rest => if p = k then rest else (p, w) :: assocDelete rest k

/-- `try: d[k].append(o) except KeyError: d[k] = deque([o])` — append the
order to the queue at `k`, creating the key at the end when absent. -/
def dictAppend (d : PriceDict) (k : Int) (o : Order) : PriceDict :=
  match d with
  | [] => [(k, [o])]
  | (p, l) :: rest => if p = k then (p, l ++ [o]) :: rest else (p, l) :: dictAppend rest k o

/-- Total quantity of a level: `sum(order.qty for order in level)`, also
the `best_bid_quantity += order.qty` accumulation loop. -/
def levelQty (l : Level) : Int :=
  l.foldl (fun acc o => acc + o.qty) 0

/-- `max(prices)` over a Python iterable, `none` when empty (the source
guards with `if len(prices) == 0: return None`). -/
def listMax : List Int → Option Int
  | [] => none
  | x :: xs => some (xs.foldl max x)

/-- `min(prices)` over a Python iterable, `none` when empty. -/
def listMin : List Int → Option Int
  | [] => none
  | x :: xs => some (xs.foldl min x)

/-- `OrderBook.__init__` state: `_bids` and `_asks` dictionaries. -/
structure OrderBook where
  _bids : PriceDict
  _asks : PriceDict
deriving DecidableEq, Repr

/-- `OrderBook()`: empty book. -/
def OrderBook.empty : OrderBook :=
  { _bids := [], _asks := [] }

/-- `OrderBook.add_order`: BUY orders are appended to `_bids` at their
price, SELL orders to `_asks`; any other side falls through both
branches and does nothing. -/
def OrderBook.add_order (b : OrderBook) (order : Order) : OrderBook :=
  if order.side = "BUY" then
    { b with _bids := dictAppend b._bids order.price order }
  else if order.side = "SELL" then
    { b with _asks := dictAppend b._asks order.price order }
  else
    b

/-- `OrderBook.get_bids`: aggregated bid levels `{price: total_qty}`. -/
def OrderBook.get_bids (b : OrderBook) : List (Int × Int) :=
  b._bids.map (fun pl => (pl.1, levelQty pl.2))

/-- `OrderBook.get_asks`: aggregated ask levels `{price: total_qty}`. -/
def OrderBook.get_asks (b : OrderBook) : List (Int × Int) :=
  b._asks.map (fun pl => (pl.1, levelQty pl.2))

/-- `OrderBook.get_best_bid`: `None` when there are no bids, else the
pair of the highest bid price and the total quantity resting there. -/
def OrderBook.get_best_bid (b : OrderBook) : Option (Int × Int) :=
  match listMax (b._bids.map Prod.fst) with
  | none => none
  | some highest_price =>
    match assocFind b._bids highest_price with
    | none => none
    | some lvl => some (highest_price, levelQty lvl)

/-- `OrderBook.get_best_ask`: `None` when there are no asks, else the
pair of the lowest ask price and the total quantity resting there. -/
def OrderBook.get_best_ask (b : OrderBook) : Option (Int × Int) :=
  match listMin (b._asks.map Prod.fst) with
  | none => none
  | some lowest_price =>
    match assocFind b._asks lowest_price with
    | none => none
    | some lvl => some (lowest_price, levelQty lvl)

/-- `MatchingEngine` state: the retained `_last_trade` and the book. -/
structure MatchingEngine where
  _last_trade : Option Trade
  book : OrderBook
deriving DecidableEq, Repr

/-- `MatchingEngine(book)` with no trade yet. -/
def MatchingEngine.mk0 (b : OrderBook) : MatchingEngine :=
  { _last_trade := none, book := b }

/-- `MatchingEngine.submit_order`, value-passing form: returns the
Python return value (`some trades` for a `return` of a list, `none` for
the implicit `return None` on an unrecognized side) together with the
post-call engine state; `Except.error` marks an uncaught exception
(`KeyError` / `IndexError`), which cannot occur on reachable states. -/
def MatchingEngine.submit_order (e : MatchingEngine) (order : Order) :
    Except String (Option (List Trade) × MatchingEngine) :=
  if order.side = "BUY" then
    match e.book.get_best_ask with
    | none => Except.ok (some [], { e with book := e.book.add_order order })
    | some best_ask =>
      let best_ask_price := best_ask.1
      if best_ask_price ≤ order.price then
        match assocFind e.book._asks best_ask_price with
        | none => Except.error "KeyError"
        | some best_ask_level =>
          match best_ask_level with
          | [] => Except.error "IndexError"
          | best_ask_order :: lvl_rest =>
            if order.qty = best_ask_order.qty then
              let trade : Trade :=
                { price := best_ask_order.price
                  qty := order.qty
                  taker_order_id := order.order_id
                  maker_order_id := best_ask_order.order_id }
              let asks2 :=
                if lvl_rest = [] then assocDelete e.book._asks best_ask_price
                else assocSet e.book._asks best_ask_price lvl_rest
              Except.ok (some [trade],
                { _last_trade := some trade
                  book := { _bids := e.book._bids, _asks := asks2 } })
            else
              Except.ok (some [], { e with book := e.book.add_order order })
      else
        Except.ok (some [], { e with book := e.book.add_order order })
  else if order.side = "SELL" then
    match e.book.get_best_bid with
    | none => Except.ok (some [], { e with book := e.book.add_order order })
    | some best_bid =>
      let best_bid_price := best_bid.1
      if order.price ≤ best_bid_price then
        match assocFind e.book._bids best_bid_price with
        | none => Except.error "KeyError"
        | some best_bid_level =>
          match best_bid_level with
          | [] => Except.error "IndexError"
          | best_bid_order :: lvl_rest =>
            if order.qty = best_bid_order.qty then
              let trade : Trade :=
                { price := best_bid_price
                  qty := order.qty
                  taker_order_id := order.order_id
                  maker_order_id := best_bid_order.order_id }
              let bids2 :=
                if lvl_rest = [] then assocDelete e.book._bids best_bid_price
                else assocSet e.book._bids best_bid_price lvl_rest
              Except.ok (some [trade],
                { _last_trade := some trade
                  book := { _bids := bids2, _asks := e.book._asks } })
            else
              Except.ok (some [], { e with book := e.book.add_order order })
      else
        Except.ok (some [], { e with book := e.book.add_order order })
  else
    Except.ok (none, e)

/-- `MatchingEngine.last_trade`. -/
def MatchingEngine.last_trade (e : MatchingEngine) : Option Trade :=
  e._last_trade

/-- `MatchingEngine.top_of_book`: the pair of best bid and best ask. -/
def MatchingEngine.top_of_book (e : MatchingEngine) :
    Option (Int × Int) × Option (Int × Int) :=
  (e.book.get_best_bid, e.book.get_best_ask)

/-- The book invariant from the spec: every price key present in `_bids`
or `_asks` maps to a non-empty queue. -/
def noEmptyLevels (b : OrderBook) : Prop :=
  (∀ pl ∈ b._bids, pl.2 ≠ []) ∧ (∀ pl ∈ b._asks, pl.2 ≠ [])

instance (b : OrderBook) : Decidable (noEmptyLevels b) := by
  unfold noEmptyLevels
  infer_instance

/-! ### Concrete sample data, used by the witness theorems -/

def sampleMakerAsk : Order := ⟨1, "SELL", 100, 10, 0⟩

def sampleMakerBid : Order := ⟨1, "BUY", 100, 10, 0⟩

def sampleTakerBuy : Order := ⟨2, "BUY", 105, 10, 1⟩

def sampleTakerSell : Order := ⟨2, "SELL", 95, 10, 1⟩

def sampleEngineAsk : MatchingEngine := ⟨none, ⟨[], [(100, [sampleMakerAsk])]⟩⟩

def sampleEngineBid : MatchingEngine := ⟨none, ⟨[(100, [sampleMakerBid])], []⟩⟩

def sampleBadOrder : Order := ⟨7, "HOLD", 100, 10, 0⟩

/-! ### Helper lemmas on the dictionary and fold primitives -/

theorem assocFind_of_mem_keys {α : Type} {d : List (Int × α)} {k : Int}
    (h : k ∈ d.map Prod.fst) : ∃ v, assocFind d k = some v := by
  induction d with
  | nil => simp at h
  | cons hd tl ih =>
    by_cases hk : hd.1 = k
    · exact ⟨hd.2, by simp [assocFind, hk]⟩
    · have : k ∈ tl.map Prod.fst := by
        simp only [List.map_cons, List.mem_cons] at h
        exact h.resolve_left (fun hh => hk hh.symm)
      obtain ⟨v, hv⟩ := ih this
      exact ⟨v, by simpa [assocFind, hk] using hv⟩

theorem assocFind_eq_none_of_not_mem {α : Type} {d : List (Int × α)} {k : Int}
    (h : k ∉ d.map Prod.fst) : assocFind d k = none := by
  induction d with
  | nil => rfl
  | cons hd tl ih =>
    obtain ⟨p, v⟩ := hd
    simp only [List.map_cons, List.mem_cons, not_or] at h
    have h1 : ¬ p = k := fun hh => h.1 hh.symm
    simp [assocFind, h1, ih h.2]

theorem assocFind_map {α β : Type} (f : α → β) (d : List (Int × α)) (k : Int) :
    assocFind (d.map (fun pv => (pv.1, f pv.2))) k = (assocFind d k).map f := by
  induction d with
  | nil => rfl
  | cons hd tl ih =>
    obtain ⟨p, v⟩ := hd
    by_cases hk : p = k <;> simp [assocFind, hk, ih]

theorem dictAppend_find_self (d : PriceDict) (k : Int) (o : Order) :
    assocFind (dictAppend d k o) k = some (((assocFind d k).getD []) ++ [o]) := by
  induction d with
  | nil => simp [dictAppend, assocFind]
  | cons hd tl ih =>
    obtain ⟨p, l⟩ := hd
    by_cases hk : p = k <;> simp [dictAppend, assocFind, hk, ih]

theorem dictAppend_find_ne (d : PriceDict) (k k2 : Int) (o : Order) (h : k2 ≠ k) :
    assocFind (dictAppend d k o) k2 = assocFind d k2 := by
  have hkk2 : ¬ k = k2 := fun hh => h hh.symm
  induction d with
  | nil => simp [dictAppend, assocFind, hkk2]
  | cons hd tl ih =>
    obtain ⟨p, l⟩ := hd
    by_cases hk : p = k
    · subst hk
      simp [dictAppend, assocFind, hkk2]
    · by_cases hk2 : p = k2 <;> simp [dictAppend, assocFind, hk, hk2, h, ih]

theorem dictAppend_nonempty {d : PriceDict} {k : Int} {o : Order}
    (h : ∀ pl ∈ d, pl.2 ≠ []) : ∀ pl ∈ dictAppend d k o, pl.2 ≠ [] := by
  induction d with
  | nil =>
    intro pl hpl
    simp only [dictAppend, List.mem_singleton] at hpl
    rw [hpl]
    simp
  | cons hd tl ih =>
    intro pl hpl
    obtain ⟨p, l⟩ := hd
    by_cases hk : p = k
    · simp only [dictAppend, if_pos hk, List.mem_cons] at hpl
      rcases hpl with h1 | h1
      · rw [h1]; simp
      · exact h pl (List.mem_cons_of_mem _ h1)
    · simp only [dictAppend, if_neg hk, List.mem_cons] at hpl
      rcases hpl with h1 | h1
      · rw [h1]; exact h (p, l) (List.mem_cons_self _ _)
      · exact ih (fun q hq => h q (List.mem_cons_of_mem _ hq)) pl h1

theorem assocSet_nonempty {α : Type} {P : α → Prop} {d : List (Int × α)} {k : Int} {v : α}
    (hv : P v) (h : ∀ pl ∈ d, P pl.2) :
    ∀ pl ∈ assocSet d k v, P pl.2 := by
  induction d with
  | nil =>
    intro pl hpl
    simp [assocSet] at hpl
  | cons hd tl ih =>
    intro pl hpl
    obtain ⟨p, w⟩ := hd
    by_cases hk : p = k
    · simp only [assocSet, if_pos hk, List.mem_cons] at hpl
      rcases hpl with h1 | h1
      · rw [h1]; exact hv
      · exact h pl (List.mem_cons_of_mem _ h1)
    · simp only [assocSet, if_neg hk, List.mem_cons] at hpl
      rcases hpl with h1 | h1
      · rw [h1]; exact h (p, w) (List.mem_cons_self _ _)
      · exact ih (fun q hq => h q (List.mem_cons_of_mem _ hq)) pl h1

theorem assocDelete_subset {α : Type} {d : List (Int × α)} {k : Int} :
    ∀ pl ∈ assocDelete d k, pl ∈ d := by
  induction d with
  | nil =>
    intro pl hpl
    simp [assocDelete] at hpl
  | cons hd tl ih =>
    intro pl hpl
    obtain ⟨p, w⟩ := hd
    by_cases hk : p = k
    · simp only [assocDelete, if_pos hk] at hpl
      exact List.mem_cons_of_mem _ hpl
    · simp only [assocDelete, if_neg hk, List.mem_cons] at hpl
      rcases hpl with h1 | h1
      · rw [h1]; exact List.mem_cons_self _ _
      · exact List.mem_cons_of_mem _ (ih pl h1)


theorem assocSet_find_self {α : Type} {d : List (Int × α)} {k : Int} {v w : α}
    (h : assocFind d k = some w) : assocFind (assocSet d k v) k = some v := by
  induction d with
  | nil => simp [assocFind] at h
  | cons hd tl ih =>
    obtain ⟨p, u⟩ := hd
    by_cases hk : p = k
    · simp [assocSet, assocFind, hk]
    · simp only [assocFind, if_neg hk] at h
      simp [assocSet, assocFind, hk, ih h]

theorem add_order_preserves_noEmptyLevels (b : OrderBook) (o : Order)
    (h : noEmptyLevels b) : noEmptyLevels (b.add_order o) := by
  obtain ⟨hb, ha⟩ := h
  by_cases h1 : o.side = "BUY"
  · exact ⟨by simpa [OrderBook.add_order, h1] using dictAppend_nonempty hb,
      by simpa [OrderBook.add_order, h1] using ha⟩
  · by_cases h2 : o.side = "SELL"
    · exact ⟨by simpa [OrderBook.add_order, h1, h2] using hb,
        by simpa [OrderBook.add_order, h1, h2] using dictAppend_nonempty ha⟩
    · exact ⟨by simpa [OrderBook.add_order, h1, h2] using hb,
        by simpa [OrderBook.add_order, h1, h2] using ha⟩

theorem le_foldl_max (xs : List Int) (a : Int) : a ≤ xs.foldl max a := by
  induction xs generalizing a with
  | nil => simp
  | cons y ys ih => exact le_trans (le_max_left a y) (ih (max a y))

theorem foldl_max_mem (xs : List Int) (a : Int) :
    xs.foldl max a = a ∨ xs.foldl max a ∈ xs := by
  induction xs generalizing a with
  | nil => simp
  | cons y ys ih =>
    simp only [List.foldl_cons]
    rcases ih (max a y) with h | h
    · rcases max_choice a y with hc | hc
      · left; rw [h, hc]
      · right; rw [h, hc]; exact List.mem_cons_self _ _
    · right; exact List.mem_cons_of_mem _ h

theorem foldl_max_ub (xs : List Int) (a : Int) :
    ∀ y ∈ xs, y ≤ xs.foldl max a := by
  induction xs generalizing a with
  | nil => simp
  | cons z zs ih =>
    intro y hy
    simp only [List.foldl_cons]
    rcases List.mem_cons.mp hy with rfl | hy
    · exact le_trans (le_max_right a y) (le_foldl_max zs (max a y))
    · exact ih (max a z) y hy

theorem listMax_spec {l : List Int} {m : Int} (h : listMax l = some m) :
    m ∈ l ∧ ∀ y ∈ l, y ≤ m := by
  match l with
  | [] => simp [listMax] at h
  | x :: xs =>
    simp only [listMax, Option.some.injEq] at h
    subst h
    refine ⟨?_, ?_⟩
    · rcases foldl_max_mem xs x with h | h
      · rw [h]; exact List.mem_cons_self _ _
      · exact List.mem_cons_of_mem _ h
    · intro y hy
      rcases List.mem_cons.mp hy with rfl | hy
      · exact le_foldl_max xs y
      · exact foldl_max_ub xs x y hy

theorem foldl_min_le (xs : List Int) (a : Int) : xs.foldl min a ≤ a := by
  induction xs generalizing a with
  | nil => simp
  | cons y ys ih => exact le_trans (ih (min a y)) (min_le_left a y)

theorem foldl_min_mem (xs : List Int) (a : Int) :
    xs.foldl min a = a ∨ xs.foldl min a ∈ xs := by
  induction xs generalizing a with
  | nil => simp
  | cons y ys ih =>
    simp only [List.foldl_cons]
    rcases ih (min a y) with h | h
    · rcases min_choice a y with hc | hc
      · left; rw [h, hc]
      · right; rw [h, hc]; exact List.mem_cons_self _ _
    · right; exact List.mem_cons_of_mem _ h

theorem foldl_min_lb (xs : List Int) (a : Int) :
    ∀ y ∈ xs, xs.foldl min a ≤ y := by
  induction xs generalizing a with
  | nil => simp
  | cons z zs ih =>
    intro y hy
    simp only [List.foldl_cons]
    rcases List.mem_cons.mp hy with rfl | hy
    · exact le_trans (foldl_min_le zs (min a y)) (min_le_right a y)
    · exact ih (min a z) y hy

theorem listMin_spec {l : List Int} {m : Int} (h : listMin l = some m) :
    m ∈ l ∧ ∀ y ∈ l, m ≤ y := by
  match l with
  | [] => simp [listMin] at h
  | x :: xs =>
    simp only [listMin, Option.some.injEq] at h
    subst h
    refine ⟨?_, ?_⟩
    · rcases foldl_min_mem xs x with h | h
      · rw [h]; exact List.mem_cons_self _ _
      · exact List.mem_cons_of_mem _ h
    · intro y hy
      rcases List.mem_cons.mp hy with rfl | hy
      · exact foldl_min_le xs y
      · exact foldl_min_lb xs x y hy

/-! ### Claim theorems -/

/-- C1: for a BUY (resp. SELL) order whose price crosses the non-empty
opposing best level and whose qty equals the qty of that level's front
order F, `submit_order` returns exactly one trade with price = F's
price, qty = the common quantity, taker = the incoming order's id,
maker = F's id; F is popped from its queue (the level being deleted if
it empties), the trade becomes `_last_trade`, and the incoming order is
never inserted (its own side of the book is unchanged). -/
theorem exact_match_single_trade :
    (∀ (e : MatchingEngine) (o F : Order) (p q : Int) (rest : Level),
      o.side = "BUY" →
      e.book.get_best_ask = some (p, q) →
      p ≤ o.price →
      assocFind e.book._asks p = some (F :: rest) →
      o.qty = F.qty →
      e.submit_order o = Except.ok
        (some [⟨F.price, o.qty, o.order_id, F.order_id⟩],
         { _last_trade := some ⟨F.price, o.qty, o.order_id, F.order_id⟩
           book := { _bids := e.book._bids
                     _asks := if rest = [] then assocDelete e.book._asks p
                              else assocSet e.book._asks p rest } })) ∧
    (∀ (e : MatchingEngine) (o F : Order) (p q : Int) (rest : Level),
      o.side = "SELL" →
      e.book.get_best_bid = some (p, q) →
      o.price ≤ p →
      assocFind e.book._bids p = some (F :: rest) →
      o.qty = F.qty →
      F.price = p →
      e.submit_order o = Except.ok
        (some [⟨F.price, o.qty, o.order_id, F.order_id⟩],
         { _last_trade := some ⟨F.price, o.qty, o.order_id, F.order_id⟩
           book := { _bids := if rest = [] then assocDelete e.book._bids p
                              else assocSet e.book._bids p rest
                     _asks := e.book._asks } })) := by
  constructor
  · intro e o F p q rest hside hba hcross hlvl hqty
    simp only [MatchingEngine.submit_order, hside, hba, hlvl, hqty, hcross,
      if_pos, if_true]
  · intro e o F p q rest hside hbb hcross hlvl hqty hFp
    subst hFp
    simp only [MatchingEngine.submit_order, hside, hbb, hlvl, hqty, hcross,
      if_pos, if_true]
    simp

/-- Witness for C1 at a concrete exact match: BUY 105×10 against a book
whose only ask is SELL 100×10. -/
theorem exact_match_single_trade_witness :
    sampleTakerBuy.side = "BUY" ∧
    sampleEngineAsk.book.get_best_ask = some (100, 10) ∧
    (100 : Int) ≤ sampleTakerBuy.price ∧
    assocFind sampleEngineAsk.book._asks 100 = some [sampleMakerAsk] ∧
    sampleTakerBuy.qty = sampleMakerAsk.qty ∧
    sampleEngineAsk.submit_order sampleTakerBuy = Except.ok
      (some [⟨100, 10, 2, 1⟩],
       { _last_trade := some ⟨100, 10, 2, 1⟩
         book := { _bids := [], _asks := [] } }) :=
  ⟨rfl, rfl, by decide, rfl, rfl, by
    have h := exact_match_single_trade.1 sampleEngineAsk sampleTakerBuy
      sampleMakerAsk 100 10 [] rfl rfl (by decide) rfl rfl
    simpa using h⟩

/-- C2: when the incoming order's price crosses the opposing best level
but its qty differs from the front order's qty, no trade occurs:
`submit_order` returns the empty list, the engine state changes only by
`add_order` of the incoming order (so `_last_trade` is unchanged), the
resting front order stays at the front of its untouched queue, and the
incoming order is appended at the tail of the queue at its own price on
its own side. -/
theorem mismatch_no_trade :
    (∀ (e : MatchingEngine) (o F : Order) (p q : Int) (rest : Level),
      o.side = "BUY" →
      e.book.get_best_ask = some (p, q) →
      p ≤ o.price →
      assocFind e.book._asks p = some (F :: rest) →
      o.qty ≠ F.qty →
      e.submit_order o =
        Except.ok (some [], { e with book := e.book.add_order o }) ∧
      assocFind (e.book.add_order o)._asks p = some (F :: rest) ∧
      assocFind (e.book.add_order o)._bids o.price =
        some (((assocFind e.book._bids o.price).getD []) ++ [o])) ∧
    (∀ (e : MatchingEngine) (o F : Order) (p q : Int) (rest : Level),
      o.side = "SELL" →
      e.book.get_best_bid = some (p, q) →
      o.price ≤ p →
      assocFind e.book._bids p = some (F :: rest) →
      o.qty ≠ F.qty →
      e.submit_order o =
        Except.ok (some [], { e with book := e.book.add_order o }) ∧
      assocFind (e.book.add_order o)._bids p = some (F :: rest) ∧
      assocFind (e.book.add_order o)._asks o.price =
        some (((assocFind e.book._asks o.price).getD []) ++ [o])) := by
  constructor
  · intro e o F p q rest hside hba hcross hlvl hqty
    refine ⟨?_, ?_, ?_⟩
    · simp only [MatchingEngine.submit_order, hside, hba, hlvl, hqty, hcross,
        if_pos, if_true, if_false]
    · simp [OrderBook.add_order, hside, hlvl]
    · simp [OrderBook.add_order, hside, dictAppend_find_self]
  · intro e o F p q rest hside hbb hcross hlvl hqty
    refine ⟨?_, ?_, ?_⟩
    · simp only [MatchingEngine.submit_order, hside, hbb, hlvl, hqty, hcross,
        if_pos, if_true, if_false]
      simp
    · simp [OrderBook.add_order, hside, hlvl]
    · simp [OrderBook.add_order, hside, dictAppend_find_self]

/-- Witness for C2: SELL 100×5 against a book whose only bid is BUY
100×10 — prices cross, quantities differ, no trade, both orders rest. -/
theorem mismatch_no_trade_witness :
    sampleEngineBid.book.get_best_bid = some (100, 10) ∧
    ((100 : Int), (5 : Int)) = (100, 5) ∧
    (Order.mk 3 "SELL" 100 5 2).qty ≠ sampleMakerBid.qty ∧
    sampleEngineBid.submit_order (Order.mk 3 "SELL" 100 5 2) =
      Except.ok (some [],
        ⟨none, ⟨[(100, [sampleMakerBid])], [(100, [Order.mk 3 "SELL" 100 5 2])]⟩⟩) ∧
    assocFind ((sampleEngineBid.book.add_order (Order.mk 3 "SELL" 100 5 2)))._bids 100 =
      some [sampleMakerBid] :=
  ⟨rfl, rfl, by decide, by
    have h := (mismatch_no_trade.2 sampleEngineBid (Order.mk 3 "SELL" 100 5 2)
      sampleMakerBid 100 10 [] rfl rfl (by decide) rfl (by decide)).1
    simpa using h, by
    have h := (mismatch_no_trade.2 sampleEngineBid (Order.mk 3 "SELL" 100 5 2)
      sampleMakerBid 100 10 [] rfl rfl (by decide) rfl (by decide)).2.1
    simpa using h⟩

/-- C3: every trade produced by `submit_order`, on both the BUY and the
SELL branch, carries the resting (maker) front order's price, never the
taker's price when the taker is strictly more aggressive. -/
theorem trade_price_is_maker_price :
    (∀ (e : MatchingEngine) (o F : Order) (p q : Int) (rest : Level)
       (ts : List Trade) (e2 : MatchingEngine),
      o.side = "BUY" →
      e.book.get_best_ask = some (p, q) →
      p ≤ o.price →
      assocFind e.book._asks p = some (F :: rest) →
      o.qty = F.qty →
      e.submit_order o = Except.ok (some ts, e2) →
      ∀ t ∈ ts, t.price = F.price ∧ (F.price < o.price → t.price ≠ o.price)) ∧
    (∀ (e : MatchingEngine) (o F : Order) (p q : Int) (rest : Level)
       (ts : List Trade) (e2 : MatchingEngine),
      o.side = "SELL" →
      e.book.get_best_bid = some (p, q) →
      o.price ≤ p →
      assocFind e.book._bids p = some (F :: rest) →
      o.qty = F.qty →
      F.price = p →
      e.submit_order o = Except.ok (some ts, e2) →
      ∀ t ∈ ts, t.price = F.price ∧ (o.price < F.price → t.price ≠ o.price)) := by
  constructor
  · intro e o F p q rest ts e2 hside hba hcross hlvl hqty hsub
    simp only [MatchingEngine.submit_order, hside, hba, hlvl, hqty, hcross,
      if_pos, if_true] at hsub
    simp only [Except.ok.injEq, Prod.mk.injEq, Option.some.injEq] at hsub
    obtain ⟨hts, -⟩ := hsub
    subst hts
    intro t ht
    simp only [List.mem_singleton] at ht
    subst ht
    exact ⟨rfl, fun hlt => hlt.ne⟩
  · intro e o F p q rest ts e2 hside hbb hcross hlvl hqty hFp hsub
    subst hFp
    simp only [MatchingEngine.submit_order, hside, hbb, hlvl, hqty, hcross,
      if_pos, if_true, Except.ok.injEq, Prod.mk.injEq, Option.some.injEq,
      String.reduceEq, Bool.false_eq_true, if_false, ite_false] at hsub
    obtain ⟨hts, -⟩ := hsub
    subst hts
    intro t ht
    simp only [List.mem_singleton] at ht
    subst ht
    exact ⟨rfl, fun hlt => hlt.ne'⟩

/-- Witness for C3: the aggressive BUY 105×10 fills the resting SELL
100×10 at price 100, not 105. -/
theorem trade_price_is_maker_price_witness :
    sampleEngineAsk.submit_order sampleTakerBuy = Except.ok
      (some [⟨100, 10, 2, 1⟩], ⟨some ⟨100, 10, 2, 1⟩, ⟨[], []⟩⟩) ∧
    (Trade.mk 100 10 2 1).price = sampleMakerAsk.price ∧
    sampleMakerAsk.price < sampleTakerBuy.price ∧
    (Trade.mk 100 10 2 1).price ≠ sampleTakerBuy.price :=
  ⟨rfl, (trade_price_is_maker_price.1 sampleEngineAsk sampleTakerBuy
      sampleMakerAsk 100 10 [] [⟨100, 10, 2, 1⟩] ⟨some ⟨100, 10, 2, 1⟩, ⟨[], []⟩⟩
      rfl rfl (by decide) rfl rfl rfl ⟨100, 10, 2, 1⟩
      (List.mem_singleton.mpr rfl)).1,
    by decide,
    (trade_price_is_maker_price.1 sampleEngineAsk sampleTakerBuy
      sampleMakerAsk 100 10 [] [⟨100, 10, 2, 1⟩] ⟨some ⟨100, 10, 2, 1⟩, ⟨[], []⟩⟩
      rfl rfl (by decide) rfl rfl rfl ⟨100, 10, 2, 1⟩
      (List.mem_singleton.mpr rfl)).2 (by decide)⟩

/-- C7: a BUY (resp. SELL) order facing an empty opposing side, or one
whose price does not cross the opposing best price, is inserted into the
book by `add_order` and `submit_order` returns the empty list; the
engine state changes only by that insertion (`_last_trade` untouched),
the opposing side is unchanged, and every level other than the order's
own price on its own side is unchanged. -/
theorem no_cross_rests_unmatched :
    (∀ (e : MatchingEngine) (o : Order),
      o.side = "BUY" →
      (e.book.get_best_ask = none ∨
       ∃ p q, e.book.get_best_ask = some (p, q) ∧ o.price < p) →
      e.submit_order o =
        Except.ok (some [], { e with book := e.book.add_order o }) ∧
      (e.book.add_order o)._asks = e.book._asks ∧
      (∀ k, k ≠ o.price →
        assocFind (e.book.add_order o)._bids k = assocFind e.book._bids k)) ∧
    (∀ (e : MatchingEngine) (o : Order),
      o.side = "SELL" →
      (e.book.get_best_bid = none ∨
       ∃ p q, e.book.get_best_bid = some (p, q) ∧ p < o.price) →
      e.submit_order o =
        Except.ok (some [], { e with book := e.book.add_order o }) ∧
      (e.book.add_order o)._bids = e.book._bids ∧
      (∀ k, k ≠ o.price →
        assocFind (e.book.add_order o)._asks k = assocFind e.book._asks k)) := by
  constructor
  · intro e o hside h
    refine ⟨?_, ?_, ?_⟩
    · rcases h with h | ⟨p, q, hba, hlt⟩
      · simp [MatchingEngine.submit_order, hside, h]
      · simp only [MatchingEngine.submit_order, hside, hba, if_pos, if_true,
          if_neg (not_le.mpr hlt)]
    · simp [OrderBook.add_order, hside]
    · intro k hk
      simp [OrderBook.add_order, hside, dictAppend_find_ne _ _ _ _ hk]
  · intro e o hside h
    refine ⟨?_, ?_, ?_⟩
    · rcases h with h | ⟨p, q, hbb, hlt⟩
      · simp [MatchingEngine.submit_order, hside, h]
      · simp only [MatchingEngine.submit_order, hside, hbb, if_pos, if_true,
          String.reduceEq, Bool.false_eq_true, if_false, ite_false,
          if_neg (not_le.mpr hlt)]
    · simp [OrderBook.add_order, hside]
    · intro k hk
      simp [OrderBook.add_order, hside, dictAppend_find_ne _ _ _ _ hk]

/-- Witness for C7: BUY 95×10 against a book whose best (only) ask is
100 does not cross and rests in the bids. -/
theorem no_cross_rests_unmatched_witness :
    sampleEngineAsk.book.get_best_ask = some (100, 10) ∧
    (Order.mk 3 "BUY" 95 10 2).price < 100 ∧
    sampleEngineAsk.submit_order (Order.mk 3 "BUY" 95 10 2) =
      Except.ok (some [],
        ⟨none, ⟨[(95, [Order.mk 3 "BUY" 95 10 2])], [(100, [sampleMakerAsk])]⟩⟩) :=
  ⟨rfl, by decide, by
    have h := ((no_cross_rests_unmatched.1 sampleEngineAsk (Order.mk 3 "BUY" 95 10 2)
      rfl (Or.inr ⟨100, 10, rfl, by decide⟩))).1
    simpa using h⟩

/-- C9: an order whose side is neither `"BUY"` nor `"SELL"` makes
`submit_order` fall through both branches and return Python `None`
(not a list) with the engine — book and `_last_trade` — completely
unchanged; `add_order` on such an order is a no-op on the book. -/
theorem malformed_side_none_noop :
    ∀ (e : MatchingEngine) (o : Order),
      o.side ≠ "BUY" → o.side ≠ "SELL" →
      e.submit_order o = Except.ok (none, e) ∧
      (∀ b : OrderBook, b.add_order o = b) := by
  intro e o h1 h2
  exact ⟨by simp [MatchingEngine.submit_order, h1, h2],
    fun b => by simp [OrderBook.add_order, h1, h2]⟩

/-- Witness for C9 at the concrete side `"HOLD"`. -/
theorem malformed_side_none_noop_witness :
    sampleBadOrder.side ≠ "BUY" ∧ sampleBadOrder.side ≠ "SELL" ∧
    sampleEngineBid.submit_order sampleBadOrder = Except.ok (none, sampleEngineBid) ∧
    sampleEngineBid.book.add_order sampleBadOrder = sampleEngineBid.book :=
  ⟨by decide, by decide,
    (malformed_side_none_noop sampleEngineBid sampleBadOrder
      (by decide) (by decide)).1,
    (malformed_side_none_noop sampleEngineBid sampleBadOrder
      (by decide) (by decide)).2 sampleEngineBid.book⟩

/-- C8 (evaluation at the failing input): the code, as written, answers
a malformed-side order with Python `None` and an untouched engine — no
explicit invalid-input signal is raised, contradicting the spec's
stated rejection policy (the book-insertion half of the policy does
hold: `add_order` cannot insert such an order). -/
theorem malformed_side_silently_ignored_eval :
    (MatchingEngine.mk0 OrderBook.empty).submit_order sampleBadOrder =
      Except.ok (none, MatchingEngine.mk0 OrderBook.empty) ∧
    OrderBook.empty.add_order sampleBadOrder = OrderBook.empty := by
  exact ⟨rfl, rfl⟩

/-- C4: when at least one bid level exists, `get_best_bid` returns the
maximum price key together with the total quantity of the queue stored
at that key, and it returns `none` on an empty bid side; symmetrically
`get_best_ask` returns the minimum ask price with its aggregate
quantity, or `none` when no asks exist. -/
theorem best_level_is_extreme_with_aggregate :
    (∀ b : OrderBook, b._bids = [] → b.get_best_bid = none) ∧
    (∀ b : OrderBook, b._bids ≠ [] →
      ∃ p lvl, p ∈ b._bids.map Prod.fst ∧
        (∀ k ∈ b._bids.map Prod.fst, k ≤ p) ∧
        assocFind b._bids p = some lvl ∧
        b.get_best_bid = some (p, levelQty lvl)) ∧
    (∀ b : OrderBook, b._asks = [] → b.get_best_ask = none) ∧
    (∀ b : OrderBook, b._asks ≠ [] →
      ∃ p lvl, p ∈ b._asks.map Prod.fst ∧
        (∀ k ∈ b._asks.map Prod.fst, p ≤ k) ∧
        assocFind b._asks p = some lvl ∧
        b.get_best_ask = some (p, levelQty lvl)) := by
  refine ⟨?_, ?_, ?_, ?_⟩
  · intro b hb
    simp [OrderBook.get_best_bid, hb, listMax]
  · intro b hb
    cases hkeys : listMax (b._bids.map Prod.fst) with
    | none =>
      cases hbb : b._bids with
      | nil => exact absurd hbb hb
      | cons hd tl => rw [hbb] at hkeys; simp [listMax] at hkeys
    | some m =>
      obtain ⟨hmem, hub⟩ := listMax_spec hkeys
      obtain ⟨lvl, hlvl⟩ := assocFind_of_mem_keys hmem
      exact ⟨m, lvl, hmem, hub, hlvl,
        by simp [OrderBook.get_best_bid, hkeys, hlvl]⟩
  · intro b hb
    simp [OrderBook.get_best_ask, hb, listMin]
  · intro b hb
    cases hkeys : listMin (b._asks.map Prod.fst) with
    | none =>
      cases hbb : b._asks with
      | nil => exact absurd hbb hb
      | cons hd tl => rw [hbb] at hkeys; simp [listMin] at hkeys
    | some m =>
      obtain ⟨hmem, hlb⟩ := listMin_spec hkeys
      obtain ⟨lvl, hlvl⟩ := assocFind_of_mem_keys hmem
      exact ⟨m, lvl, hmem, hlb, hlvl,
        by simp [OrderBook.get_best_ask, hkeys, hlvl]⟩

/-- Witness for C4 on a book with bids at 100 and 110: the best bid is
the maximum key 110 with its aggregate quantity. -/
theorem best_level_is_extreme_with_aggregate_witness :
    (OrderBook.mk [(100, [sampleMakerBid]), (110, [Order.mk 4 "BUY" 110 7 3])] [])._bids
      ≠ [] ∧
    (∃ p lvl,
      p ∈ (OrderBook.mk [(100, [sampleMakerBid]), (110, [Order.mk 4 "BUY" 110 7 3])] [])._bids.map Prod.fst ∧
      (∀ k ∈ (OrderBook.mk [(100, [sampleMakerBid]), (110, [Order.mk 4 "BUY" 110 7 3])] [])._bids.map Prod.fst, k ≤ p) ∧
      assocFind (OrderBook.mk [(100, [sampleMakerBid]), (110, [Order.mk 4 "BUY" 110 7 3])] [])._bids p = some lvl ∧
      (OrderBook.mk [(100, [sampleMakerBid]), (110, [Order.mk 4 "BUY" 110 7 3])] []).get_best_bid = some (p, levelQty lvl)) :=
  ⟨by decide,
    best_level_is_extreme_with_aggregate.2.1
      (OrderBook.mk [(100, [sampleMakerBid]), (110, [Order.mk 4 "BUY" 110 7 3])] [])
      (by decide)⟩

/-- C10: the queries agree — whenever `get_best_bid` returns `(p, q)`,
the aggregated view `get_bids` maps `p` to exactly `q`; symmetrically
for `get_best_ask` and `get_asks`. -/
theorem top_of_book_agrees_with_aggregated :
    (∀ (b : OrderBook) (p q : Int), b.get_best_bid = some (p, q) →
      assocFind b.get_bids p = some q) ∧
    (∀ (b : OrderBook) (p q : Int), b.get_best_ask = some (p, q) →
      assocFind b.get_asks p = some q) := by
  constructor
  · intro b p q h
    cases hm : listMax (b._bids.map Prod.fst) with
    | none => simp [OrderBook.get_best_bid, hm] at h
    | some m =>
      cases hf : assocFind b._bids m with
      | none => simp [OrderBook.get_best_bid, hm, hf] at h
      | some lvl =>
        simp only [OrderBook.get_best_bid, hm, hf, Option.some.injEq,
          Prod.mk.injEq] at h
        obtain ⟨rfl, rfl⟩ := h
        simp [OrderBook.get_bids, assocFind_map, hf]
  · intro b p q h
    cases hm : listMin (b._asks.map Prod.fst) with
    | none => simp [OrderBook.get_best_ask, hm] at h
    | some m =>
      cases hf : assocFind b._asks m with
      | none => simp [OrderBook.get_best_ask, hm, hf] at h
      | some lvl =>
        simp only [OrderBook.get_best_ask, hm, hf, Option.some.injEq,
          Prod.mk.injEq] at h
        obtain ⟨rfl, rfl⟩ := h
        simp [OrderBook.get_asks, assocFind_map, hf]

/-- Witness for C10: on the sample one-bid book, the best bid (100, 10)
also appears as the aggregated entry at price 100. -/
theorem top_of_book_agrees_with_aggregated_witness :
    sampleEngineBid.book.get_best_bid = some (100, 10) ∧
    assocFind sampleEngineBid.book.get_bids 100 = some 10 :=
  ⟨by decide,
    top_of_book_agrees_with_aggregated.1 sampleEngineBid.book 100 10 (by decide)⟩

/-- C5: two orders O1 then O2 inserted at the same (previously absent)
price and side rest in arrival order `[O1, O2]`; a subsequent crossing
opposing order whose qty equals O1's qty trades against O1 (the trade's
maker is O1's id) and leaves O2 resting alone at that level — stated
for BUY-resting/SELL-taker and for SELL-resting/BUY-taker. -/
theorem fifo_front_order_matches_first :
    (∀ (b : OrderBook) (o1 o2 m : Order) (q : Int) (lt : Option Trade),
      o1.side = "BUY" → o2.side = "BUY" → o2.price = o1.price →
      assocFind b._bids o1.price = none →
      ((b.add_order o1).add_order o2).get_best_bid = some (o1.price, q) →
      m.side = "SELL" → m.price ≤ o1.price → m.qty = o1.qty →
      assocFind ((b.add_order o1).add_order o2)._bids o1.price = some [o1, o2] ∧
      (MatchingEngine.mk lt ((b.add_order o1).add_order o2)).submit_order m =
        Except.ok (some [⟨o1.price, m.qty, m.order_id, o1.order_id⟩],
          { _last_trade := some ⟨o1.price, m.qty, m.order_id, o1.order_id⟩
            book := { _bids :=
                        assocSet ((b.add_order o1).add_order o2)._bids o1.price [o2]
                      _asks := ((b.add_order o1).add_order o2)._asks } }) ∧
      assocFind
        (assocSet ((b.add_order o1).add_order o2)._bids o1.price [o2]) o1.price =
        some [o2]) ∧
    (∀ (b : OrderBook) (o1 o2 m : Order) (q : Int) (lt : Option Trade),
      o1.side = "SELL" → o2.side = "SELL" → o2.price = o1.price →
      assocFind b._asks o1.price = none →
      ((b.add_order o1).add_order o2).get_best_ask = some (o1.price, q) →
      m.side = "BUY" → o1.price ≤ m.price → m.qty = o1.qty →
      assocFind ((b.add_order o1).add_order o2)._asks o1.price = some [o1, o2] ∧
      (MatchingEngine.mk lt ((b.add_order o1).add_order o2)).submit_order m =
        Except.ok (some [⟨o1.price, m.qty, m.order_id, o1.order_id⟩],
          { _last_trade := some ⟨o1.price, m.qty, m.order_id, o1.order_id⟩
            book := { _bids := ((b.add_order o1).add_order o2)._bids
                      _asks :=
                        assocSet ((b.add_order o1).add_order o2)._asks o1.price [o2] } }) ∧
      assocFind
        (assocSet ((b.add_order o1).add_order o2)._asks o1.price [o2]) o1.price =
        some [o2]) := by
  constructor
  · intro b o1 o2 m q lt h1side h2side hp2 hnone hbest hmside hmp hmq
    set B1 := b.add_order o1 with hB1
    have h1 : assocFind B1._bids o1.price = some [o1] := by
      rw [hB1]
      simp [OrderBook.add_order, h1side, dictAppend_find_self, hnone]
    have h2 : assocFind (B1.add_order o2)._bids o1.price = some [o1, o2] := by
      have heq : (B1.add_order o2)._bids = dictAppend B1._bids o1.price o2 := by
        simp [OrderBook.add_order, h2side, hp2]
      rw [heq, dictAppend_find_self, h1]
      rfl
    refine ⟨h2, ?_, assocSet_find_self h2⟩
    simp only [MatchingEngine.submit_order, hmside, hbest, h2, hmq, hmp,
      if_pos, if_true, String.reduceEq, Bool.false_eq_true, if_false, ite_false]
    simp
  · intro b o1 o2 m q lt h1side h2side hp2 hnone hbest hmside hmp hmq
    set B1 := b.add_order o1 with hB1
    have h1 : assocFind B1._asks o1.price = some [o1] := by
      rw [hB1]
      simp [OrderBook.add_order, h1side, dictAppend_find_self, hnone]
    have h2 : assocFind (B1.add_order o2)._asks o1.price = some [o1, o2] := by
      have heq : (B1.add_order o2)._asks = dictAppend B1._asks o1.price o2 := by
        simp [OrderBook.add_order, h2side, hp2]
      rw [heq, dictAppend_find_self, h1]
      rfl
    refine ⟨h2, ?_, assocSet_find_self h2⟩
    simp only [MatchingEngine.submit_order, hmside, hbest, h2, hmq, hmp,
      if_pos, if_true, String.reduceEq, Bool.false_eq_true, if_false, ite_false]
    simp

/-- Witness for C5, both halves: BUY 100×10 (id 1) then BUY 100×8
(id 5) rest as `[O1, O2]` and SELL 100×10 (id 6) fills id 1, leaving
id 5; symmetrically SELL 100×10 then SELL 100×8 rest in order and BUY
100×10 fills the first. -/
theorem fifo_front_order_matches_first_witness :
    assocFind OrderBook.empty._bids 100 = none ∧
    ((OrderBook.empty.add_order sampleMakerBid).add_order
        (Order.mk 5 "BUY" 100 8 1)).get_best_bid = some (100, 18) ∧
    (MatchingEngine.mk none ((OrderBook.empty.add_order sampleMakerBid).add_order
        (Order.mk 5 "BUY" 100 8 1))).submit_order (Order.mk 6 "SELL" 100 10 2) =
      Except.ok (some [⟨100, 10, 6, 1⟩],
        ⟨some ⟨100, 10, 6, 1⟩, ⟨[(100, [Order.mk 5 "BUY" 100 8 1])], []⟩⟩) ∧
    ((OrderBook.empty.add_order sampleMakerAsk).add_order
        (Order.mk 5 "SELL" 100 8 1)).get_best_ask = some (100, 18) ∧
    (MatchingEngine.mk none ((OrderBook.empty.add_order sampleMakerAsk).add_order
        (Order.mk 5 "SELL" 100 8 1))).submit_order (Order.mk 6 "BUY" 100 10 2) =
      Except.ok (some [⟨100, 10, 6, 1⟩],
        ⟨some ⟨100, 10, 6, 1⟩, ⟨[], [(100, [Order.mk 5 "SELL" 100 8 1])]⟩⟩) :=
  ⟨rfl, by decide,
    by
      have h := (fifo_front_order_matches_first.1 OrderBook.empty sampleMakerBid
        (Order.mk 5 "BUY" 100 8 1) (Order.mk 6 "SELL" 100 10 2) 18 none
        rfl rfl rfl rfl (by decide) rfl (by decide) rfl).2.1
      simpa using h,
    by decide,
    by
      have h := (fifo_front_order_matches_first.2 OrderBook.empty sampleMakerAsk
        (Order.mk 5 "SELL" 100 8 1) (Order.mk 6 "BUY" 100 10 2) 18 none
        rfl rfl rfl rfl (by decide) rfl (by decide) rfl).2.1
      simpa using h⟩

/-- C6: the no-empty-levels invariant — every price key maps to a
non-empty queue — is preserved by `add_order` and by every normally
returning branch of `submit_order` (a fill that empties a queue deletes
its key); moreover a price key absent from a side is absent from that
side's aggregated view, and can never be reported by the best-level
queries. -/
theorem no_empty_levels_invariant :
    (∀ (b : OrderBook) (o : Order), noEmptyLevels b →
      noEmptyLevels (b.add_order o)) ∧
    (∀ (e : MatchingEngine) (o : Order) (r : Option (List Trade))
       (e2 : MatchingEngine),
      noEmptyLevels e.book → e.submit_order o = Except.ok (r, e2) →
      noEmptyLevels e2.book) ∧
    (∀ (b : OrderBook) (p : Int), assocFind b._bids p = none →
      assocFind b.get_bids p = none) ∧
    (∀ (b : OrderBook) (p : Int), assocFind b._asks p = none →
      assocFind b.get_asks p = none) ∧
    (∀ (b : OrderBook) (p q : Int), b.get_best_bid = some (p, q) →
      assocFind b._bids p ≠ none) ∧
    (∀ (b : OrderBook) (p q : Int), b.get_best_ask = some (p, q) →
      assocFind b._asks p ≠ none) := by
  refine ⟨fun b o h => add_order_preserves_noEmptyLevels b o h, ?_, ?_, ?_, ?_, ?_⟩
  · intro e o r e2 hinv hsub
    simp only [MatchingEngine.submit_order] at hsub
    split at hsub
    · -- BUY branch
      split at hsub
      · simp only [Except.ok.injEq, Prod.mk.injEq] at hsub
        obtain ⟨-, rfl⟩ := hsub
        exact add_order_preserves_noEmptyLevels _ _ hinv
      · split at hsub
        · split at hsub
          · exact absurd hsub (by simp)
          · split at hsub
            · exact absurd hsub (by simp)
            · split at hsub
              · split at hsub
                · simp only [Except.ok.injEq, Prod.mk.injEq] at hsub
                  obtain ⟨-, rfl⟩ := hsub
                  exact ⟨hinv.1, fun pl hpl => hinv.2 pl (assocDelete_subset pl hpl)⟩
                · next hne =>
                  simp only [Except.ok.injEq, Prod.mk.injEq] at hsub
                  obtain ⟨-, rfl⟩ := hsub
                  exact ⟨hinv.1, assocSet_nonempty (P := fun l => l ≠ []) hne hinv.2⟩
              · simp only [Except.ok.injEq, Prod.mk.injEq] at hsub
                obtain ⟨-, rfl⟩ := hsub
                exact add_order_preserves_noEmptyLevels _ _ hinv
        · simp only [Except.ok.injEq, Prod.mk.injEq] at hsub
          obtain ⟨-, rfl⟩ := hsub
          exact add_order_preserves_noEmptyLevels _ _ hinv
    · split at hsub
      · -- SELL branch
        split at hsub
        · simp only [Except.ok.injEq, Prod.mk.injEq] at hsub
          obtain ⟨-, rfl⟩ := hsub
          exact add_order_preserves_noEmptyLevels _ _ hinv
        · split at hsub
          · split at hsub
            · exact absurd hsub (by simp)
            · split at hsub
              · exact absurd hsub (by simp)
              · split at hsub
                · split at hsub
                  · simp only [Except.ok.injEq, Prod.mk.injEq] at hsub
                    obtain ⟨-, rfl⟩ := hsub
                    exact ⟨fun pl hpl => hinv.1 pl (assocDelete_subset pl hpl), hinv.2⟩
                  · next hne =>
                    simp only [Except.ok.injEq, Prod.mk.injEq] at hsub
                    obtain ⟨-, rfl⟩ := hsub
                    exact ⟨assocSet_nonempty (P := fun l => l ≠ []) hne hinv.1, hinv.2⟩
                · simp only [Except.ok.injEq, Prod.mk.injEq] at hsub
                  obtain ⟨-, rfl⟩ := hsub
                  exact add_order_preserves_noEmptyLevels _ _ hinv
          · simp only [Except.ok.injEq, Prod.mk.injEq] at hsub
            obtain ⟨-, rfl⟩ := hsub
            exact add_order_preserves_noEmptyLevels _ _ hinv
      · -- malformed side: state unchanged
        simp only [Except.ok.injEq, Prod.mk.injEq] at hsub
        obtain ⟨-, rfl⟩ := hsub
        exact hinv
  · intro b p h
    simp [OrderBook.get_bids, assocFind_map, h]
  · intro b p h
    simp [OrderBook.get_asks, assocFind_map, h]
  · intro b p q h
    cases hm : listMax (b._bids.map Prod.fst) with
    | none => simp [OrderBook.get_best_bid, hm] at h
    | some m =>
      cases hf : assocFind b._bids m with
      | none => simp [OrderBook.get_best_bid, hm, hf] at h
      | some lvl =>
        simp only [OrderBook.get_best_bid, hm, hf, Option.some.injEq,
          Prod.mk.injEq] at h
        obtain ⟨rfl, -⟩ := h
        simp [hf]
  · intro b p q h
    cases hm : listMin (b._asks.map Prod.fst) with
    | none => simp [OrderBook.get_best_ask, hm] at h
    | some m =>
      cases hf : assocFind b._asks m with
      | none => simp [OrderBook.get_best_ask, hm, hf] at h
      | some lvl =>
        simp only [OrderBook.get_best_ask, hm, hf, Option.some.injEq,
          Prod.mk.injEq] at h
        obtain ⟨rfl, -⟩ := h
        simp [hf]

/-- Witness for C6: an exact fill that empties the only ask level leaves
a book still satisfying the invariant (the level's key was deleted). -/
theorem no_empty_levels_invariant_witness :
    noEmptyLevels sampleEngineAsk.book ∧
    noEmptyLevels (MatchingEngine.mk (some ⟨100, 10, 2, 1⟩) ⟨[], []⟩).book :=
  ⟨by decide,
    no_empty_levels_invariant.2.1 sampleEngineAsk sampleTakerBuy
      (some [⟨100, 10, 2, 1⟩]) (MatchingEngine.mk (some ⟨100, 10, 2, 1⟩) ⟨[], []⟩)
      (by decide) rfl⟩

end ToyExchange
